import Mathlib

/-!
Shallow embedding of `src/module-4/taxi_rides_ny/download_data.py`
(the acquisition pipeline of the repository): selection building,
configuration validation, the fetch/convert step with its on-disk
idempotence check, the bounded-concurrency scheduler with its
consecutive-failure circuit breaker, and the store loader.

Machine integers of the source are modelled as `Int`/`Nat`; the
filesystem is modelled as a list of present paths; the scheduler's
interleaved execution is modelled as a small-step transition system over
explicit event schedules (one `start` and one `finish` event per task,
with the semaphore bound and the aborted-flag check embedded in the
step function exactly as in the source).
-/

namespace DownloadData

/-- Known taxi categories (`KNOWN_TAXI_TYPES`, line 25 of the source). -/
def KNOWN_TAXI_TYPES : List String := ["yellow", "green", "fhv", "fhvhv"]

/-- Concurrency bound (`CONCURRENT_DOWNLOADS`, line 23 of the source). -/
def CONCURRENT_DOWNLOADS : Nat := 4

/-- Circuit-breaker threshold (`MAX_CONSECUTIVE_FAILURES`, line 26). -/
def MAX_CONSECUTIVE_FAILURES : Nat := 5

/-- A shard identifier: `(taxi_type, year, month)`. -/
abbrev ShardKey := String × Int × Int

/-- The configuration dictionary as the source reads it: flat keys
`taxi_types`, `years`, `months` (lines 283-285 access
`config["taxi_types"]`, `config["years"]`, `config["months"]`). -/
structure Config where
  taxi_types : List String
  years : List Int
  months : List Int
deriving DecidableEq, Repr

/-- Python truthiness of an optional string (`if taxi_type`):
falsy when absent or empty. -/
def truthyStr : Option String → Bool
  | none => false
  | some s => s ≠ ""

/-- Python truthiness of an optional integer (`if year`, `if month`):
falsy when absent or zero. -/
def truthyInt : Option Int → Bool
  | none => false
  | some n => n ≠ 0

/-- `build_file_list` (lines 276-292): each axis is the CLI override as a
singleton when the override is truthy, otherwise the config list; the
result is the nested-loop Cartesian product, in list order, with no
sorting and no deduplication. -/
def build_file_list (config : Config) (taxi_type : Option String)
    (year : Option Int) (month : Option Int) : List ShardKey :=
  let taxi_types := if truthyStr taxi_type then [taxi_type.getD ""] else config.taxi_types
  let years := if truthyInt year then [year.getD 0] else config.years
  let months := if truthyInt month then [month.getD 0] else config.months
  taxi_types.flatMap fun t => years.flatMap fun y => months.map fun m => (t, y, m)

/-- One entry of the `errors` list built by `validate_config`
(lines 252-267): one aggregated entry for the unknown taxi types, one
entry per out-of-range year, one per out-of-range month. -/
inductive Violation where
  | unknownTypes (ts : List String)
  | badYear (y : Int)
  | badMonth (m : Int)
deriving DecidableEq, Repr

/-- The `errors` list accumulated by `validate_config` (lines 252-267):
the set difference `set(config["taxi_types"]) - KNOWN_TAXI_TYPES`
contributes a single entry when non-empty, then every year outside
[2009, 2030] and every month outside [1, 12] contributes an entry.
Nothing stops at the first violation. -/
def validationErrors (config : Config) : List Violation :=
  let unknown := (config.taxi_types.filter (fun t => ¬ t ∈ KNOWN_TAXI_TYPES)).dedup
  (if unknown = [] then [] else [Violation.unknownTypes unknown])
    ++ config.years.filterMap
        (fun y => if 2009 ≤ y ∧ y ≤ 2030 then none else some (Violation.badYear y))
    ++ config.months.filterMap
        (fun m => if 1 ≤ m ∧ m ≤ 12 then none else some (Violation.badMonth m))

/-- `validate_config` (lines 250-273): reports the whole `errors` list
and terminates with exit status 1 (`raise SystemExit(1)`) exactly when
it is non-empty; returns normally otherwise. -/
def validate_config (config : Config) : Except (List Violation) Unit :=
  if validationErrors config = [] then Except.ok ()
  else Except.error (validationErrors config)

/-- Two-digit month formatting (`{month:02d}` in the source). -/
def twoDigit (m : Int) : String :=
  if 0 ≤ m ∧ m < 10 then "0" ++ toString m else toString m

/-- The deterministic target path
`data/<type>/<type>_tripdata_<year>-<month:02d>.parquet` (lines 92-96). -/
def parquetPath (t : String) (y m : Int) : String :=
  let ys := toString y
  let ms := twoDigit m
  s!"data/{t}/{t}_tripdata_{ys}-{ms}.parquet"

/-- The intermediate path
`data/<type>/<type>_tripdata_<year>-<month:02d>.csv.gz` (lines 106-107). -/
def csvGzPath (t : String) (y m : Int) : String :=
  let ys := toString y
  let ms := twoDigit m
  s!"data/{t}/{t}_tripdata_{ys}-{ms}.csv.gz"

/-- Filesystem abstraction: the characteristic function of the set of
present paths. -/
abbrev FS := String → Bool

/-- Path creation. -/
def FS.add (fs : FS) (p : String) : FS := fun q => if q = p then true else fs q

/-- Path deletion (`Path.unlink`). -/
def FS.remove (fs : FS) (p : String) : FS := fun q => if q = p then false else fs q

/-- Outcome of the streaming fetch (`download_file`, lines 63-79).
`statusError` models `raise_for_status` firing before the destination
file is opened (line 72 precedes the `open` on line 76);
`midstreamError` models a transport failure after the destination file
was opened and partially written. -/
inductive FetchOutcome where
  | ok
  | statusError
  | midstreamError
deriving DecidableEq

/-- How one call of `download_and_convert` resolves: skipped (existing
parquet returned, no fetch), downloaded (fetched and converted), or an
exception propagated to the caller. -/
inductive DCOutcome where
  | skipped (path : String)
  | downloaded (path : String)
  | error
deriving DecidableEq

/-- Result of one `download_and_convert` call: its outcome, the
filesystem afterwards, and the number of network fetches performed. -/
structure DCResult where
  outcome : DCOutcome
  fs : FS
  fetches : Nat

/-- The `try` block of `download_and_convert` (lines 117-138): stream
the payload to the csv.gz path, then convert. A status error raises
before the csv.gz file is opened; a mid-stream error leaves the partial
csv.gz behind; a conversion failure leaves the csv.gz behind and no
parquet file; on full success the parquet file is written and only then
the csv.gz unlinked (line 60). No failure path removes any file. -/
def attemptFetchConvert (fs : FS) (t : String) (y m : Int)
    (fetch : FetchOutcome) (convertOk : Bool) : DCResult :=
  match fetch with
  | .statusError => ⟨DCOutcome.error, fs, 1⟩
  | .midstreamError => ⟨DCOutcome.error, fs.add (csvGzPath t y m), 1⟩
  | .ok =>
      if convertOk then
        ⟨DCOutcome.downloaded (parquetPath t y m),
          ((fs.add (csvGzPath t y m)).add (parquetPath t y m)).remove
            (csvGzPath t y m), 1⟩
      else
        ⟨DCOutcome.error, fs.add (csvGzPath t y m), 1⟩

/-- `download_and_convert` (lines 82-138) together with
`convert_to_parquet` (lines 49-60), at the filesystem level. If the
parquet file exists and `force` is false, the existing path is returned
with no fetch (lines 98-104); with `force`, the parquet file is
unlinked first (line 100); otherwise the attempt runs on the resulting
filesystem. Modelled from the spec: the DuckDB `COPY` statement is an
external collaborator and is taken to produce the parquet file exactly
when conversion succeeds. -/
def download_and_convert (fs : FS) (t : String) (y m : Int)
    (fetch : FetchOutcome) (convertOk : Bool) (force : Bool) : DCResult :=
  if fs (parquetPath t y m) = true ∧ force = false then
    ⟨DCOutcome.skipped (parquetPath t y m), fs, 0⟩
  else
    attemptFetchConvert
      (if fs (parquetPath t y m) = true then fs.remove (parquetPath t y m)
       else fs)
      t y m fetch convertOk

/-- How one tracked task of `download_all_files` resolves: a `Path`
(success), an `Exception` (failure), or `None` (not attempted because
the aborted flag was set; lines 169-170). -/
inductive TaskResult where
  | success
  | failed
  | notAttempted
deriving DecidableEq

/-- Lifecycle of one task in the scheduler model. -/
inductive TaskPhase where
  | pending
  | inflight
  | done (r : TaskResult)
deriving DecidableEq

/-- Parameters of one `download_all_files` invocation: the file list and
the environment oracles (whether each shard's parquet output exists at
task-start time, whether a fetch+convert attempt for it succeeds, and
the `force` flag). -/
structure SchedParams where
  files : List ShardKey
  existsOnDisk : ShardKey → Bool
  fetchOk : ShardKey → Bool
  force : Bool

/-- Shared state of one `download_all_files` invocation: per-task
phases, the `consecutive_failures` counter, the `aborted` flag
(lines 147-148), the number of abort notices printed (lines 181-184),
and the number of fetch attempts started. -/
structure SchedState where
  phases : List TaskPhase
  counter : Nat
  aborted : Bool
  notices : Nat
  attempts : Nat
deriving DecidableEq

/-- Number of phases equal to `t`. -/
def countPhase (l : List TaskPhase) (t : TaskPhase) : Nat :=
  l.countP (fun p => decide (p = t))

/-- Tasks currently holding a concurrency slot mid-attempt. -/
def inflightCount (s : SchedState) : Nat := countPhase s.phases .inflight

/-- Tasks resolved with result `r`. -/
def doneCount (s : SchedState) (r : TaskResult) : Nat :=
  countPhase s.phases (.done r)

/-- Tasks not yet started. -/
def pendingCount (s : SchedState) : Nat := countPhase s.phases .pending

/-- Phase of task `i` (out-of-range reads as resolved-none; never hit on
valid indices). -/
def phaseAt (s : SchedState) (i : Nat) : TaskPhase :=
  s.phases.getD i (.done .notAttempted)

/-- Placeholder shard for out-of-range index reads. -/
def dummyShard : ShardKey := ("", 0, 0)

/-- Resolve task `i` with result `r`. -/
def resolve (s : SchedState) (i : Nat) (r : TaskResult) : SchedState :=
  { s with phases := s.phases.set i (.done r) }

/-- An atomic scheduling event of one `download_with_tracking` task
(lines 164-185): `start i` is the synchronous prefix — semaphore
acquisition, aborted-flag check, and the pre-fetch existence check of
`download_and_convert` — and `finish i` is the synchronous suffix after
the awaited fetch/convert resolves — the `consecutive_failures` update,
the threshold check, and the abort notice. Between a task's `start` and
`finish`, other tasks may interleave, as under the cooperative
scheduler of the source. -/
inductive Event where
  | start (i : Nat)
  | finish (i : Nat)

/-- The synchronous prefix of one task: fires only when the task is
pending and a concurrency slot is free; resolves the task as `None`
when the aborted flag is set (lines 169-170), resolves it as a success
without any fetch when the output exists and `force` is false
(lines 98-104, resetting the counter, line 175), and otherwise begins a
fetch attempt. -/
def stepStart (P : SchedParams) (s : SchedState) (i : Nat) : SchedState :=
  if phaseAt s i = TaskPhase.pending
      ∧ inflightCount s < CONCURRENT_DOWNLOADS then
    if s.aborted then
      resolve s i .notAttempted
    else
      if P.existsOnDisk (P.files.getD i dummyShard) = true
          ∧ P.force = false then
        { resolve s i .success with counter := 0 }
      else
        { s with phases := s.phases.set i .inflight,
                 attempts := s.attempts + 1 }
  else s

/-- The synchronous suffix of one task, after its awaited fetch/convert
resolves: fires only when the task is mid-attempt; on success the
counter resets (line 175), on failure the counter increments and, when
it has reached `MAX_CONSECUTIVE_FAILURES`, the aborted flag is assigned
and the abort notice printed (lines 177-185). -/
def stepFinish (P : SchedParams) (s : SchedState) (i : Nat) : SchedState :=
  if phaseAt s i = TaskPhase.inflight then
    if P.fetchOk (P.files.getD i dummyShard) = true then
      { resolve s i .success with counter := 0 }
    else
      { resolve s i .failed with
          counter := s.counter + 1,
          aborted := if MAX_CONSECUTIVE_FAILURES ≤ s.counter + 1 then true
            else s.aborted,
          notices := s.notices +
            if MAX_CONSECUTIVE_FAILURES ≤ s.counter + 1 then 1 else 0 }
  else s

/-- Small-step transition of the scheduler: dispatch one atomic event.
Events whose guard does not hold leave the state unchanged. -/
def step (P : SchedParams) (s : SchedState) : Event → SchedState
  | .start i => stepStart P s i
  | .finish i => stepFinish P s i

/-- Initial state of one invocation: every task pending, counter zero,
flag clear (lines 147-148). -/
def initState (n : Nat) : SchedState :=
  { phases := List.replicate n .pending, counter := 0, aborted := false,
    notices := 0, attempts := 0 }

/-- Run the scheduler under an explicit event schedule. -/
def run (P : SchedParams) (es : List Event) : SchedState :=
  es.foldl (step P) (initState P.files.length)

/-- The fully sequential schedule: each task starts and finishes before
the next starts. -/
def seqSchedule (n : Nat) : List Event :=
  (List.range n).flatMap fun i => [Event.start i, Event.finish i]

/-- The `successful_paths` list built on line 194: the output path of
every task that resolved as a `Path`, in task order. -/
def successfulPaths (P : SchedParams) (s : SchedState) : List String :=
  (P.files.zip s.phases).filterMap fun kp =>
    if kp.2 = TaskPhase.done .success then
      some (parquetPath kp.1.1 kp.1.2.1 kp.1.2.2)
    else none

/-- `download_all_files` (lines 141-200): the successful paths together
with the `failed_count` of line 195. -/
def download_all_files (P : SchedParams) (es : List Event) : List String × Nat :=
  (successfulPaths P (run P es), doneCount (run P es) .failed)

/-- One table materialized by the store loader: its category, the glob
it scans, whether schemas are unioned by name, and the reported row
count. -/
structure LoadedTable where
  category : String
  sourceGlob : String
  unionByName : Bool
  rows : Nat
deriving DecidableEq

/-- `load_into_duckdb` (lines 203-231): iterates over the hard-coded
list `["yellow", "green"]` (line 211), skips a category whose data
directory is missing or holds no parquet file (lines 213-218), and
otherwise recreates `prod.<type>_tripdata` from
`read_parquet('data/<type>/*.parquet', union_by_name=true)` and reports
its row count. Modelled from the spec: the DuckDB `read_parquet` scan
is an external collaborator; its by-name schema union over the
category's files reports the sum of the per-file row counts. -/
def load_into_duckdb (dirExists : String → Bool)
    (parquetFilesOf : String → List String) (rowsOf : String → Nat) :
    List LoadedTable :=
  ["yellow", "green"].filterMap fun t =>
    if dirExists ("data/" ++ t) = false then none
    else if parquetFilesOf t = [] then none
    else some { category := t,
                sourceGlob := "data/" ++ t ++ "/*.parquet",
                unionByName := true,
                rows := ((parquetFilesOf t).map rowsOf).sum }

/-- The pre-flight part of `main` (lines 352-368) as a decision: a
configuration error exits with status 1 (`validate_config`), an empty
selection prints a notice and returns (lines 366-368), and otherwise
the run proceeds to the download phase. -/
inductive RunOutcome where
  | configError (errs : List Violation)
  | emptySelectionNotice
  | proceeded (files : List ShardKey)
deriving DecidableEq

/-- The pre-flight decision of `main` (lines 357-368): validation, then
selection building, then the empty-selection check — all before
`update_gitignore` and `download_all_files` (lines 389-390). -/
def main_outcome (config : Config) (taxi_type : Option String)
    (year : Option Int) (month : Option Int) : RunOutcome :=
  match validate_config config with
  | .error errs => .configError errs
  | .ok _ =>
      let files := build_file_list config taxi_type year month
      if files = [] then .emptySelectionNotice else .proceeded files

/-- Process exit status of a pre-flight decision: `SystemExit(1)` for a
configuration error, normal return (status 0) otherwise. -/
def exitCode : RunOutcome → Nat
  | .configError _ => 1
  | _ => 0

/-- Whether the decided run goes on to perform download I/O. -/
def performsDownloadIO : RunOutcome → Bool
  | .proceeded _ => true
  | _ => false

/-- A batch of 12 identical-category shards (the reference scenario of
the circuit-breaker property). -/
def twelveShards : List ShardKey :=
  List.replicate 12 ("yellow", 2019, 1)

/-- Scheduler parameters for a 12-shard batch whose every fetch attempt
fails and whose outputs are absent. -/
def allFailParams : SchedParams :=
  ⟨twelveShards, fun _ => false, fun _ => false, false⟩

/-- A 6-shard all-failing batch used to exhibit interleaved abort
notices. -/
def sixFailParams : SchedParams :=
  ⟨List.replicate 6 ("yellow", 2019, 1), fun _ => false, fun _ => false, false⟩

/-- An interleaved schedule for six tasks: four fetches start and stay
in flight, two more start as slots free, and the failures then settle
in order — the fifth failure crosses the threshold while the sixth
fetch is still in flight. -/
def interleavedSchedule : List Event :=
  [Event.start 0, Event.start 1, Event.start 2, Event.start 3, Event.finish 0,
   Event.start 4, Event.finish 1, Event.start 5, Event.finish 2, Event.finish 3,
   Event.finish 4, Event.finish 5]

/-- Scheduler parameters for a 1-shard batch whose output parquet file
already exists on disk. -/
def allExistParams : SchedParams :=
  ⟨[("yellow", 2019, 1)], fun _ => true, fun _ => false, false⟩

/-- A filesystem containing exactly the parquet output of
yellow/2019/01. -/
def oneParquetFS : FS :=
  fun p => decide (p = parquetPath "yellow" 2019 1)

/-- An empty filesystem. -/
def emptyFS : FS := fun _ => false

/-- A converted-output layout in which only the fhv category holds a
parquet file. -/
def fhvOnlyFiles : String → List String :=
  fun t => if t = "fhv" then ["data/fhv/fhv_tripdata_2019-01.parquet"] else []

/-- The scheduler invariant underlying the all-fail circuit-breaker
bound: while the flag is clear the counter counts the failures (nothing
ever resets it), at most four tasks have failed, and the started
attempts are exactly the in-flight plus the failed tasks; once the flag
is set the attempt count is frozen at no more than eight. -/
def AbortInv (n : Nat) (s : SchedState) : Prop :=
  s.phases.length = n ∧
  inflightCount s ≤ CONCURRENT_DOWNLOADS ∧
  (s.aborted = false →
    s.counter = doneCount s .failed ∧
    doneCount s .failed ≤ CONCURRENT_DOWNLOADS ∧
    s.attempts = inflightCount s + doneCount s .failed) ∧
  (s.aborted = true → s.attempts ≤ 8) ∧
  doneCount s .success = 0

/-- The scheduler invariant underlying the notice-count bound: before
the flag is set no notice has been printed, and afterwards the printed
notices and the still-in-flight attempts together never exceed the
concurrency bound. -/
def NoticeInv (n : Nat) (s : SchedState) : Prop :=
  s.phases.length = n ∧
  inflightCount s ≤ CONCURRENT_DOWNLOADS ∧
  (s.aborted = false → s.notices = 0) ∧
  (s.aborted = true → 1 ≤ s.notices) ∧
  (s.aborted = true → s.notices + inflightCount s ≤ CONCURRENT_DOWNLOADS)

/-- The scheduler invariant underlying second-run idempotence: when
every selected shard's output already exists and `force` is unset, no
attempt ever starts and nothing fails or aborts. -/
def RerunInv (n : Nat) (s : SchedState) : Prop :=
  s.phases.length = n ∧
  s.attempts = 0 ∧
  s.aborted = false ∧
  inflightCount s = 0 ∧
  doneCount s .failed = 0 ∧
  doneCount s .notAttempted = 0

/-- Both atomic events of task `i`, back to back. -/
def processTask (P : SchedParams) (s : SchedState) (i : Nat) : SchedState :=
  step P (step P s (.start i)) (.finish i)

/-- A configuration violating all three validation rules at once. -/
def badConfig : Config := ⟨["red", "yellow"], [1999, 2019], [0, 13]⟩

/-- A valid configuration whose year axis is empty, so its selection
expands to nothing. -/
def emptyYearsConfig : Config := ⟨["yellow"], [], [1]⟩

/-- A converted-output layout in which only the yellow category holds a
parquet file. -/
def yellowOnlyFiles : String → List String :=
  fun t => if t = "yellow" then ["data/yellow/a.parquet"] else []

theorem countP_set_add {α : Type} (p : α → Bool) :
    ∀ (l : List α) (i : Nat) (a c : α), l[i]? = some c →
      (l.set i a).countP p + (if p c then 1 else 0)
        = l.countP p + (if p a then 1 else 0) := by
  intro l
  induction l with
  | nil => intro i a c h; simp at h
  | cons x xs ih =>
    intro i a c h
    cases i with
    | zero =>
      simp only [List.getElem?_cons_zero, Option.some.injEq] at h
      subst h
      simp only [List.set_cons_zero, List.countP_cons]
      omega
    | succ i =>
      simp only [List.getElem?_cons_succ] at h
      have := ih i a c h
      simp only [List.set_cons_succ, List.countP_cons]
      omega

theorem countPhase_set (l : List TaskPhase) (i : Nat) (a c t : TaskPhase)
    (h : l[i]? = some c) :
    countPhase (l.set i a) t + (if c = t then 1 else 0)
      = countPhase l t + (if a = t then 1 else 0) := by
  have := countP_set_add (fun p => decide (p = t)) l i a c h
  simpa [countPhase] using this

theorem phaseAt_pending_getElem {s : SchedState} {i : Nat}
    (h : phaseAt s i = TaskPhase.pending) :
    s.phases[i]? = some TaskPhase.pending := by
  unfold phaseAt at h
  rw [List.getD_eq_getElem?_getD] at h
  cases hg : s.phases[i]? with
  | none => rw [hg] at h; simp at h
  | some a => rw [hg] at h; simp at h; rw [h]

theorem phaseAt_inflight_getElem {s : SchedState} {i : Nat}
    (h : phaseAt s i = TaskPhase.inflight) :
    s.phases[i]? = some TaskPhase.inflight := by
  unfold phaseAt at h
  rw [List.getD_eq_getElem?_getD] at h
  cases hg : s.phases[i]? with
  | none => rw [hg] at h; simp at h
  | some a => rw [hg] at h; simp at h; rw [h]

theorem getElem?_some_lt {α : Type} {l : List α} {i : Nat} {a : α}
    (h : l[i]? = some a) : i < l.length := by
  by_contra hlt
  push_neg at hlt
  rw [List.getElem?_eq_none hlt] at h
  exact Option.noConfusion h

theorem countPhase_pos_of_getElem {l : List TaskPhase} {i : Nat} {t : TaskPhase}
    (h : l[i]? = some t) : 1 ≤ countPhase l t := by
  have hm : t ∈ l := List.getElem?_mem h
  have : 0 < countPhase l t := by
    unfold countPhase
    rw [List.countP_pos_iff]
    exact ⟨t, hm, by simp⟩
  omega

theorem foldl_inv {σ ε : Type} (f : σ → ε → σ) (Inv : σ → Prop)
    (hstep : ∀ s e, Inv s → Inv (f s e)) :
    ∀ (es : List ε) (s : σ), Inv s → Inv (es.foldl f s) := by
  intro es
  induction es with
  | nil => intro s h; simpa using h
  | cons e es ih => intro s h; exact ih (f s e) (hstep s e h)

theorem countPhase_replicate (n : Nat) (t u : TaskPhase) :
    countPhase (List.replicate n t) u = if t = u then n else 0 := by
  unfold countPhase
  rw [List.countP_replicate]
  split <;> simp_all

theorem countPhase_partition (l : List TaskPhase) :
    countPhase l .pending + countPhase l .inflight
      + countPhase l (.done .success) + countPhase l (.done .failed)
      + countPhase l (.done .notAttempted) = l.length := by
  induction l with
  | nil => simp [countPhase]
  | cons x xs ih =>
    unfold countPhase at *
    cases x with
    | pending => simp [List.countP_cons]; omega
    | inflight => simp [List.countP_cons]; omega
    | done r => cases r <;> · simp [List.countP_cons]; omega

theorem step_start_noGuard (P : SchedParams) (s : SchedState) (i : Nat)
    (hg : ¬ (phaseAt s i = TaskPhase.pending
        ∧ inflightCount s < CONCURRENT_DOWNLOADS)) :
    step P s (.start i) = s := by
  show stepStart P s i = s
  unfold stepStart
  rw [if_neg hg]

theorem step_start_aborted (P : SchedParams) (s : SchedState) (i : Nat)
    (hg : phaseAt s i = TaskPhase.pending
        ∧ inflightCount s < CONCURRENT_DOWNLOADS)
    (hab : s.aborted = true) :
    step P s (.start i) = resolve s i .notAttempted := by
  show stepStart P s i = _
  unfold stepStart
  rw [if_pos hg, if_pos hab]

theorem step_start_skip (P : SchedParams) (s : SchedState) (i : Nat)
    (hg : phaseAt s i = TaskPhase.pending
        ∧ inflightCount s < CONCURRENT_DOWNLOADS)
    (hab : s.aborted = false)
    (hc : P.existsOnDisk (P.files.getD i dummyShard) = true ∧ P.force = false) :
    step P s (.start i) = { resolve s i .success with counter := 0 } := by
  show stepStart P s i = _
  unfold stepStart
  rw [if_pos hg, if_neg (by simp [hab]), if_pos hc]

theorem step_start_attempt (P : SchedParams) (s : SchedState) (i : Nat)
    (hg : phaseAt s i = TaskPhase.pending
        ∧ inflightCount s < CONCURRENT_DOWNLOADS)
    (hab : s.aborted = false)
    (hc : ¬ (P.existsOnDisk (P.files.getD i dummyShard) = true
        ∧ P.force = false)) :
    step P s (.start i) = { s with phases := s.phases.set i .inflight,
                                   attempts := s.attempts + 1 } := by
  show stepStart P s i = _
  unfold stepStart
  rw [if_pos hg, if_neg (by simp [hab]), if_neg hc]

theorem step_finish_noGuard (P : SchedParams) (s : SchedState) (i : Nat)
    (hg : ¬ phaseAt s i = TaskPhase.inflight) :
    step P s (.finish i) = s := by
  show stepFinish P s i = s
  unfold stepFinish
  rw [if_neg hg]

theorem step_finish_success (P : SchedParams) (s : SchedState) (i : Nat)
    (hg : phaseAt s i = TaskPhase.inflight)
    (hok : P.fetchOk (P.files.getD i dummyShard) = true) :
    step P s (.finish i) = { resolve s i .success with counter := 0 } := by
  show stepFinish P s i = _
  unfold stepFinish
  rw [if_pos hg, if_pos hok]

theorem step_finish_fail (P : SchedParams) (s : SchedState) (i : Nat)
    (hg : phaseAt s i = TaskPhase.inflight)
    (hok : ¬ P.fetchOk (P.files.getD i dummyShard) = true) :
    step P s (.finish i)
      = { resolve s i .failed with
            counter := s.counter + 1,
            aborted := if MAX_CONSECUTIVE_FAILURES ≤ s.counter + 1 then true
              else s.aborted,
            notices := s.notices
              + if MAX_CONSECUTIVE_FAILURES ≤ s.counter + 1 then 1 else 0 } := by
  show stepFinish P s i = _
  unfold stepFinish
  rw [if_pos hg, if_neg hok]

theorem abortInv_step (P : SchedParams)
    (hEx : ∀ k, P.existsOnDisk k = false)
    (hFk : ∀ k, P.fetchOk k = false)
    (s : SchedState) (e : Event)
    (h : AbortInv P.files.length s) :
    AbortInv P.files.length (step P s e) := by
  obtain ⟨hlen, hinfl, hclear, hset, hsucc⟩ := h
  cases e with
  | start i =>
      by_cases hg : phaseAt s i = TaskPhase.pending
          ∧ inflightCount s < CONCURRENT_DOWNLOADS
      · have hsome := phaseAt_pending_getElem hg.1
        cases hab : s.aborted with
        | true =>
            rw [step_start_aborted P s i hg hab]
            have eInf := countPhase_set s.phases i
              (TaskPhase.done .notAttempted) TaskPhase.pending
              TaskPhase.inflight hsome
            have eF := countPhase_set s.phases i
              (TaskPhase.done .notAttempted) TaskPhase.pending
              (TaskPhase.done .failed) hsome
            have eS := countPhase_set s.phases i
              (TaskPhase.done .notAttempted) TaskPhase.pending
              (TaskPhase.done .success) hsome
            simp at eInf eF eS
            refine ⟨?_, ?_, ?_, ?_, ?_⟩
            · simp [resolve, hlen]
            · simp only [inflightCount, resolve]
              simp only [inflightCount] at hinfl
              omega
            · intro habF
              simp only [resolve, hab] at habF
              exact Bool.noConfusion habF
            · intro _
              exact hset hab
            · simp only [doneCount, resolve]
              simp only [doneCount] at hsucc
              omega
        | false =>
            have hcond : ¬ (P.existsOnDisk (P.files.getD i dummyShard) = true
                ∧ P.force = false) := by
              simp [hEx]
            rw [step_start_attempt P s i hg hab hcond]
            have eInf := countPhase_set s.phases i TaskPhase.inflight
              TaskPhase.pending TaskPhase.inflight hsome
            have eF := countPhase_set s.phases i TaskPhase.inflight
              TaskPhase.pending (TaskPhase.done .failed) hsome
            have eS := countPhase_set s.phases i TaskPhase.inflight
              TaskPhase.pending (TaskPhase.done .success) hsome
            simp at eInf eF eS
            have hclear' := hclear hab
            refine ⟨?_, ?_, ?_, ?_, ?_⟩
            · simp [hlen]
            · simp only [inflightCount]
              simp only [inflightCount] at hinfl hg
              omega
            · intro _
              simp only [inflightCount, doneCount] at *
              refine ⟨?_, ?_, ?_⟩ <;> omega
            · intro habT
              rw [habT] at hab
              cases hab
            · simp only [doneCount] at *
              omega
      · rw [step_start_noGuard P s i hg]
        exact ⟨hlen, hinfl, hclear, hset, hsucc⟩
  | finish i =>
      by_cases hg : phaseAt s i = TaskPhase.inflight
      · have hsome := phaseAt_inflight_getElem hg
        have hok : ¬ P.fetchOk (P.files.getD i dummyShard) = true := by
          simp [hFk]
        rw [step_finish_fail P s i hg hok]
        have eInf := countPhase_set s.phases i (TaskPhase.done .failed)
          TaskPhase.inflight TaskPhase.inflight hsome
        have eF := countPhase_set s.phases i (TaskPhase.done .failed)
          TaskPhase.inflight (TaskPhase.done .failed) hsome
        have eS := countPhase_set s.phases i (TaskPhase.done .failed)
          TaskPhase.inflight (TaskPhase.done .success) hsome
        simp at eInf eF eS
        refine ⟨?_, ?_, ?_, ?_, ?_⟩
        · simp [resolve, hlen]
        · simp only [inflightCount, resolve]
          simp only [inflightCount] at hinfl
          omega
        · intro habF
          simp only [resolve] at habF
          by_cases hth : MAX_CONSECUTIVE_FAILURES ≤ s.counter + 1
          · rw [if_pos hth] at habF
            cases habF
          · rw [if_neg hth] at habF
            have hclear' := hclear habF
            simp only [resolve, inflightCount, doneCount] at *
            unfold MAX_CONSECUTIVE_FAILURES at hth
            unfold CONCURRENT_DOWNLOADS
            unfold CONCURRENT_DOWNLOADS at hclear'
            refine ⟨?_, ?_, ?_⟩ <;> omega
        · intro habT
          simp only [resolve] at habT ⊢
          by_cases hth : MAX_CONSECUTIVE_FAILURES ≤ s.counter + 1
          · cases hab : s.aborted with
            | true => exact hset hab
            | false =>
                obtain ⟨hc1, hc2, hc3⟩ := hclear hab
                simp only [inflightCount, doneCount] at hc2 hc3 hinfl
                unfold CONCURRENT_DOWNLOADS at hc2 hinfl
                omega
          · rw [if_neg hth] at habT
            exact hset habT
        · simp only [doneCount, resolve] at *
          omega
      · rw [step_finish_noGuard P s i hg]
        exact ⟨hlen, hinfl, hclear, hset, hsucc⟩

theorem step_aborted_mono (P : SchedParams) (s : SchedState) (e : Event)
    (h : s.aborted = true) : (step P s e).aborted = true := by
  cases e with
  | start i =>
      by_cases hg : phaseAt s i = TaskPhase.pending
          ∧ inflightCount s < CONCURRENT_DOWNLOADS
      · rw [step_start_aborted P s i hg h]
        exact h
      · rw [step_start_noGuard P s i hg]
        exact h
  | finish i =>
      by_cases hg : phaseAt s i = TaskPhase.inflight
      · by_cases hok : P.fetchOk (P.files.getD i dummyShard) = true
        · rw [step_finish_success P s i hg hok]
          exact h
        · rw [step_finish_fail P s i hg hok]
          show (if MAX_CONSECUTIVE_FAILURES ≤ s.counter + 1 then true
            else s.aborted) = true
          by_cases hth : MAX_CONSECUTIVE_FAILURES ≤ s.counter + 1
          · rw [if_pos hth]
          · rw [if_neg hth]
            exact h
      · rw [step_finish_noGuard P s i hg]
        exact h

theorem noticeInv_step (P : SchedParams) (s : SchedState) (e : Event)
    (h : NoticeInv P.files.length s) :
    NoticeInv P.files.length (step P s e) := by
  obtain ⟨hlen, hinfl, hn0, hn1, hbound⟩ := h
  cases e with
  | start i =>
      by_cases hg : phaseAt s i = TaskPhase.pending
          ∧ inflightCount s < CONCURRENT_DOWNLOADS
      · have hsome := phaseAt_pending_getElem hg.1
        cases hab : s.aborted with
        | true =>
            rw [step_start_aborted P s i hg hab]
            have eInf := countPhase_set s.phases i
              (TaskPhase.done .notAttempted) TaskPhase.pending
              TaskPhase.inflight hsome
            simp at eInf
            refine ⟨by simp [resolve, hlen], ?_, ?_, ?_, ?_⟩
            · simp only [inflightCount, resolve]
              simp only [inflightCount] at hinfl
              omega
            · intro habF
              simp only [resolve, hab] at habF
              exact Bool.noConfusion habF
            · intro _
              exact hn1 hab
            · intro _
              have := hbound hab
              simp only [inflightCount, resolve] at *
              omega
        | false =>
            by_cases hc : P.existsOnDisk (P.files.getD i dummyShard) = true
                ∧ P.force = false
            · rw [step_start_skip P s i hg hab hc]
              have eInf := countPhase_set s.phases i
                (TaskPhase.done .success) TaskPhase.pending
                TaskPhase.inflight hsome
              simp at eInf
              refine ⟨by simp [resolve, hlen], ?_, ?_, ?_, ?_⟩
              · simp only [inflightCount, resolve]
                simp only [inflightCount] at hinfl
                omega
              · intro _
                exact hn0 hab
              · intro habT
                simp only [resolve] at habT
                rw [habT] at hab
                exact Bool.noConfusion hab
              · intro habT
                simp only [resolve] at habT
                rw [habT] at hab
                exact Bool.noConfusion hab
            · rw [step_start_attempt P s i hg hab hc]
              have eInf := countPhase_set s.phases i TaskPhase.inflight
                TaskPhase.pending TaskPhase.inflight hsome
              simp at eInf
              refine ⟨by simp [hlen], ?_, ?_, ?_, ?_⟩
              · simp only [inflightCount]
                simp only [inflightCount] at hg
                omega
              · intro _
                exact hn0 hab
              · intro habT
                simp only [] at habT
                rw [habT] at hab
                exact Bool.noConfusion hab
              · intro habT
                simp only [] at habT
                rw [habT] at hab
                exact Bool.noConfusion hab
      · rw [step_start_noGuard P s i hg]
        exact ⟨hlen, hinfl, hn0, hn1, hbound⟩
  | finish i =>
      by_cases hg : phaseAt s i = TaskPhase.inflight
      · have hsome := phaseAt_inflight_getElem hg
        have hpos := countPhase_pos_of_getElem hsome
        by_cases hok : P.fetchOk (P.files.getD i dummyShard) = true
        · rw [step_finish_success P s i hg hok]
          have eInf := countPhase_set s.phases i (TaskPhase.done .success)
            TaskPhase.inflight TaskPhase.inflight hsome
          simp at eInf
          refine ⟨by simp [resolve, hlen], ?_, ?_, ?_, ?_⟩
          · simp only [inflightCount, resolve]
            simp only [inflightCount] at hinfl
            omega
          · intro habF
            simp only [resolve] at habF
            exact hn0 habF
          · intro habT
            simp only [resolve] at habT
            exact hn1 habT
          · intro habT
            simp only [resolve] at habT
            have := hbound habT
            simp only [inflightCount, resolve] at *
            omega
        · rw [step_finish_fail P s i hg hok]
          have eInf := countPhase_set s.phases i (TaskPhase.done .failed)
            TaskPhase.inflight TaskPhase.inflight hsome
          simp at eInf
          by_cases hth : MAX_CONSECUTIVE_FAILURES ≤ s.counter + 1
          · simp only [if_pos hth]
            refine ⟨by simp [resolve, hlen], ?_, ?_, ?_, ?_⟩
            · simp only [inflightCount, resolve]
              simp only [inflightCount] at hinfl
              omega
            · intro habF
              exact Bool.noConfusion habF
            · intro _
              simp only [resolve]
              omega
            · intro _
              cases hab : s.aborted with
              | true =>
                  have := hbound hab
                  simp only [inflightCount, resolve] at *
                  omega
              | false =>
                  have := hn0 hab
                  simp only [inflightCount, resolve] at *
                  omega
          · simp only [if_neg hth]
            refine ⟨by simp [resolve, hlen], ?_, ?_, ?_, ?_⟩
            · simp only [inflightCount, resolve]
              simp only [inflightCount] at hinfl
              omega
            · intro habF
              simp only [resolve] at habF
              have := hn0 habF
              simp only [resolve]
              omega
            · intro habT
              simp only [resolve] at habT
              have := hn1 habT
              simp only [resolve]
              omega
            · intro habT
              simp only [resolve] at habT
              have := hbound habT
              simp only [inflightCount, resolve] at *
              omega
      · rw [step_finish_noGuard P s i hg]
        exact ⟨hlen, hinfl, hn0, hn1, hbound⟩

theorem getD_mem_of_lt (l : List ShardKey) (i : Nat) (h : i < l.length) :
    l.getD i dummyShard ∈ l := by
  rw [List.getD_eq_getElem?_getD, List.getElem?_eq_getElem h]
  exact List.getElem_mem h

theorem rerunInv_step (P : SchedParams)
    (hEx : ∀ k ∈ P.files, P.existsOnDisk k = true)
    (hForce : P.force = false)
    (s : SchedState) (e : Event) (h : RerunInv P.files.length s) :
    RerunInv P.files.length (step P s e) := by
  obtain ⟨hlen, hatt, hab, hinfl, hfail, hna⟩ := h
  cases e with
  | start i =>
      by_cases hg : phaseAt s i = TaskPhase.pending
          ∧ inflightCount s < CONCURRENT_DOWNLOADS
      · have hsome := phaseAt_pending_getElem hg.1
        have hi : i < P.files.length := by
          have := getElem?_some_lt hsome
          omega
        have hc : P.existsOnDisk (P.files.getD i dummyShard) = true
            ∧ P.force = false :=
          ⟨hEx _ (getD_mem_of_lt P.files i hi), hForce⟩
        rw [step_start_skip P s i hg hab hc]
        have eInf := countPhase_set s.phases i (TaskPhase.done .success)
          TaskPhase.pending TaskPhase.inflight hsome
        have eF := countPhase_set s.phases i (TaskPhase.done .success)
          TaskPhase.pending (TaskPhase.done .failed) hsome
        have eNA := countPhase_set s.phases i (TaskPhase.done .success)
          TaskPhase.pending (TaskPhase.done .notAttempted) hsome
        simp at eInf eF eNA
        refine ⟨by simp [resolve, hlen], by simp [resolve]; exact hatt,
          by simp [resolve]; exact hab, ?_, ?_, ?_⟩
        · simp only [inflightCount, resolve]
          simp only [inflightCount] at hinfl
          omega
        · simp only [doneCount, resolve]
          simp only [doneCount] at hfail
          omega
        · simp only [doneCount, resolve]
          simp only [doneCount] at hna
          omega
      · rw [step_start_noGuard P s i hg]
        exact ⟨hlen, hatt, hab, hinfl, hfail, hna⟩
  | finish i =>
      by_cases hg : phaseAt s i = TaskPhase.inflight
      · exfalso
        have hsome := phaseAt_inflight_getElem hg
        have hpos := countPhase_pos_of_getElem hsome
        simp only [inflightCount] at hinfl
        omega
      · rw [step_finish_noGuard P s i hg]
        exact ⟨hlen, hatt, hab, hinfl, hfail, hna⟩

theorem foldl_flatMap {σ α ε : Type} (f : σ → ε → σ) (g : α → List ε) :
    ∀ (l : List α) (s : σ),
      (l.flatMap g).foldl f s = l.foldl (fun s a => (g a).foldl f s) s := by
  intro l
  induction l with
  | nil => intro s; rfl
  | cons x xs ih =>
      intro s
      rw [List.flatMap_cons, List.foldl_append, List.foldl_cons, ih]

theorem run_seq_eq (P : SchedParams) :
    run P (seqSchedule P.files.length)
      = (List.range P.files.length).foldl (processTask P)
          (initState P.files.length) := by
  unfold run seqSchedule
  rw [foldl_flatMap]
  rfl

theorem processTask_resolves (P : SchedParams) (s : SchedState) (i : Nat)
    (hinfl : inflightCount s = 0)
    (hp : s.phases[i]? = some TaskPhase.pending) :
    (processTask P s i).phases.length = s.phases.length ∧
    inflightCount (processTask P s i) = 0 ∧
    (∃ r, (processTask P s i).phases[i]? = some (TaskPhase.done r)) ∧
    (∀ j, j ≠ i → (processTask P s i).phases[j]? = s.phases[j]?) := by
  have hi : i < s.phases.length := getElem?_some_lt hp
  have hpend : phaseAt s i = TaskPhase.pending := by
    unfold phaseAt
    rw [List.getD_eq_getElem?_getD, hp]
    rfl
  have hg : phaseAt s i = TaskPhase.pending
      ∧ inflightCount s < CONCURRENT_DOWNLOADS := by
    refine ⟨hpend, ?_⟩
    unfold CONCURRENT_DOWNLOADS
    omega
  unfold processTask
  cases hab : s.aborted with
  | true =>
      rw [step_start_aborted P s i hg hab]
      have hset : (resolve s i .notAttempted).phases[i]?
          = some (TaskPhase.done .notAttempted) := by
        simp [resolve, List.getElem?_set_self, hi]
      have hgf : ¬ phaseAt (resolve s i .notAttempted) i
          = TaskPhase.inflight := by
        unfold phaseAt
        rw [List.getD_eq_getElem?_getD, hset]
        simp
      rw [step_finish_noGuard _ _ _ hgf]
      have eInf := countPhase_set s.phases i (TaskPhase.done .notAttempted)
        TaskPhase.pending TaskPhase.inflight hp
      simp at eInf
      refine ⟨by simp [resolve], ?_, ⟨.notAttempted, hset⟩, ?_⟩
      · simp only [inflightCount, resolve]
        simp only [inflightCount] at hinfl
        omega
      · intro j hj
        simp [resolve, List.getElem?_set, hj.symm]
  | false =>
      by_cases hc : P.existsOnDisk (P.files.getD i dummyShard) = true
          ∧ P.force = false
      · rw [step_start_skip P s i hg hab hc]
        have hset : ({ resolve s i .success with counter := 0 } :
            SchedState).phases[i]? = some (TaskPhase.done .success) := by
          simp [resolve, List.getElem?_set_self, hi]
        have hgf : ¬ phaseAt { resolve s i .success with counter := 0 } i
            = TaskPhase.inflight := by
          unfold phaseAt
          rw [List.getD_eq_getElem?_getD, hset]
          simp
        rw [step_finish_noGuard _ _ _ hgf]
        have eInf := countPhase_set s.phases i (TaskPhase.done .success)
          TaskPhase.pending TaskPhase.inflight hp
        simp at eInf
        refine ⟨by simp [resolve], ?_, ⟨.success, hset⟩, ?_⟩
        · simp only [inflightCount, resolve]
          simp only [inflightCount] at hinfl
          omega
        · intro j hj
          simp [resolve, List.getElem?_set, hj.symm]
      · rw [step_start_attempt P s i hg hab hc]
        have hset1 : ({ s with
              phases := s.phases.set i .inflight,
              attempts := s.attempts + 1 } : SchedState).phases[i]?
            = some TaskPhase.inflight := by
          simp [List.getElem?_set_self, hi]
        have hg1 : phaseAt { s with
              phases := s.phases.set i .inflight,
              attempts := s.attempts + 1 } i = TaskPhase.inflight := by
          unfold phaseAt
          rw [List.getD_eq_getElem?_getD, hset1]
          rfl
        have eInf1 := countPhase_set s.phases i TaskPhase.inflight
          TaskPhase.pending TaskPhase.inflight hp
        simp at eInf1
        by_cases hok : P.fetchOk (P.files.getD i dummyShard) = true
        · rw [step_finish_success _ _ _ hg1 hok]
          have eInf2 := countPhase_set (s.phases.set i TaskPhase.inflight) i
            (TaskPhase.done .success) TaskPhase.inflight TaskPhase.inflight
            (by simp [List.getElem?_set_self, hi])
          simp at eInf2
          refine ⟨by simp [resolve], ?_, ⟨.success, ?_⟩, ?_⟩
          · simp only [inflightCount, resolve, List.set_set]
            simp only [inflightCount] at hinfl
            omega
          · simp [resolve, List.set_set, List.getElem?_set_self, hi]
          · intro j hj
            simp [resolve, List.set_set, List.getElem?_set, hj.symm]
        · rw [step_finish_fail _ _ _ hg1 hok]
          have eInf2 := countPhase_set (s.phases.set i TaskPhase.inflight) i
            (TaskPhase.done .failed) TaskPhase.inflight TaskPhase.inflight
            (by simp [List.getElem?_set_self, hi])
          simp at eInf2
          refine ⟨by simp [resolve], ?_, ⟨.failed, ?_⟩, ?_⟩
          · simp only [inflightCount, resolve, List.set_set]
            simp only [inflightCount] at hinfl
            omega
          · simp [resolve, List.set_set, List.getElem?_set_self, hi]
          · intro j hj
            simp [resolve, List.set_set, List.getElem?_set, hj.symm]

theorem seq_run_state (P : SchedParams) :
    ∀ k, k ≤ P.files.length →
      ((List.range k).foldl (processTask P)
          (initState P.files.length)).phases.length = P.files.length ∧
      inflightCount ((List.range k).foldl (processTask P)
          (initState P.files.length)) = 0 ∧
      (∀ j, j < k → ∃ r, ((List.range k).foldl (processTask P)
          (initState P.files.length)).phases[j]?
            = some (TaskPhase.done r)) ∧
      (∀ j, k ≤ j → j < P.files.length →
        ((List.range k).foldl (processTask P)
          (initState P.files.length)).phases[j]? = some TaskPhase.pending) := by
  intro k
  induction k with
  | zero =>
      intro _
      refine ⟨by simp [initState], ?_, ?_, ?_⟩
      · simp [inflightCount, initState, countPhase_replicate]
      · intro j hj
        omega
      · intro j _ hj
        simp [initState, List.getElem?_replicate, hj]
  | succ k ih =>
      intro hk1
      have hk : k ≤ P.files.length := Nat.le_of_succ_le hk1
      obtain ⟨hlen, hinfl, hdone, hpend⟩ := ih hk
      have hseq : (List.range (k + 1)).foldl (processTask P)
          (initState P.files.length)
          = processTask P ((List.range k).foldl (processTask P)
              (initState P.files.length)) k := by
        rw [show List.range (k + 1) = List.range k ++ [k] by
          simpa using List.range_succ k]
        rw [List.foldl_append]
        rfl
      have hpk : ((List.range k).foldl (processTask P)
          (initState P.files.length)).phases[k]? = some TaskPhase.pending :=
        hpend k (Nat.le_refl k) (by omega)
      obtain ⟨hlen', hinfl', ⟨r, hr⟩, hother⟩ :=
        processTask_resolves P _ k hinfl hpk
      rw [hseq]
      refine ⟨hlen'.trans hlen, hinfl', ?_, ?_⟩
      · intro j hj
        by_cases hji : j = k
        · subst hji
          exact ⟨r, hr⟩
        · rw [hother j hji]
          exact hdone j (by omega)
      · intro j hj1 hj2
        rw [hother j (by omega)]
        exact hpend j (by omega) hj2

theorem seq_run_complete (P : SchedParams) :
    (run P (seqSchedule P.files.length)).phases.length = P.files.length ∧
    inflightCount (run P (seqSchedule P.files.length)) = 0 ∧
    pendingCount (run P (seqSchedule P.files.length)) = 0 := by
  rw [run_seq_eq]
  obtain ⟨hlen, hinfl, hdone, _⟩ :=
    seq_run_state P P.files.length (Nat.le_refl _)
  refine ⟨hlen, hinfl, ?_⟩
  unfold pendingCount countPhase
  by_contra hne
  have hpos : 0 < ((List.range P.files.length).foldl (processTask P)
      (initState P.files.length)).phases.countP
        (fun p => decide (p = TaskPhase.pending)) := by
    omega
  rw [List.countP_pos_iff] at hpos
  obtain ⟨a, ha, hpa⟩ := hpos
  simp at hpa
  subst hpa
  rw [List.mem_iff_getElem?] at ha
  obtain ⟨j, hj⟩ := ha
  have hjlt : j < P.files.length := by
    have := getElem?_some_lt hj
    omega
  obtain ⟨r, hr⟩ := hdone j hjlt
  rw [hj] at hr
  exact Option.noConfusion hr fun h => TaskPhase.noConfusion h

theorem successfulPaths_zip_length :
    ∀ (ks : List ShardKey) (ps : List TaskPhase), ks.length = ps.length →
      ((ks.zip ps).filterMap fun kp =>
        if kp.2 = TaskPhase.done .success then
          some (parquetPath kp.1.1 kp.1.2.1 kp.1.2.2)
        else none).length = countPhase ps (.done .success) := by
  intro ks
  induction ks with
  | nil =>
      intro ps h
      have : ps = [] := by
        cases ps with
        | nil => rfl
        | cons p ps' => simp at h
      subst this
      simp [countPhase]
  | cons x xs ih =>
      intro ps h
      cases ps with
      | nil => simp at h
      | cons p ps' =>
          have ih' := ih ps' (by simpa using h)
          by_cases hp : p = TaskPhase.done .success
          · subst hp
            simp [List.filterMap_cons, countPhase, List.countP_cons]
            unfold countPhase at ih'
            omega
          · simp [List.filterMap_cons, hp, countPhase, List.countP_cons]
            unfold countPhase at ih'
            omega

theorem successfulPaths_length (P : SchedParams) (s : SchedState)
    (hlen : s.phases.length = P.files.length) :
    (successfulPaths P s).length = doneCount s .success := by
  unfold successfulPaths doneCount
  exact successfulPaths_zip_length P.files s.phases hlen.symm

theorem successfulPaths_nil (P : SchedParams) (s : SchedState)
    (h : doneCount s .success = 0) : successfulPaths P s = [] := by
  unfold successfulPaths
  rw [List.filterMap_eq_nil_iff]
  intro kp hkp
  have hmem : kp.2 ∈ s.phases := (List.of_mem_zip hkp).2
  have hne : ¬ kp.2 = TaskPhase.done .success := by
    intro heq
    have hpos : 0 < countPhase s.phases (TaskPhase.done .success) := by
      unfold countPhase
      rw [List.countP_pos_iff]
      exact ⟨kp.2, hmem, by simp [heq]⟩
    unfold doneCount at h
    omega
  simp [hne]

theorem abortInv_init (n : Nat) : AbortInv n (initState n) := by
  refine ⟨by simp [initState], ?_, ?_, ?_, ?_⟩
  · simp [inflightCount, initState, countPhase_replicate]
  · intro _
    refine ⟨?_, ?_, ?_⟩ <;>
      simp [initState, doneCount, inflightCount, countPhase_replicate]
  · intro h
    simp [initState] at h
  · simp [doneCount, initState, countPhase_replicate]

theorem noticeInv_init (n : Nat) : NoticeInv n (initState n) := by
  refine ⟨by simp [initState], ?_, ?_, ?_, ?_⟩
  · simp [inflightCount, initState, countPhase_replicate]
  · intro _
    rfl
  · intro h
    simp [initState] at h
  · intro h
    simp [initState] at h

theorem rerunInv_init (n : Nat) : RerunInv n (initState n) := by
  refine ⟨by simp [initState], rfl, rfl, ?_, ?_, ?_⟩ <;>
    simp [inflightCount, doneCount, initState, countPhase_replicate]

theorem step_phases_length (P : SchedParams) (s : SchedState) (e : Event) :
    (step P s e).phases.length = s.phases.length := by
  cases e with
  | start i =>
      show (stepStart P s i).phases.length = _
      unfold stepStart
      split
      · split
        · simp [resolve]
        · split
          · simp [resolve]
          · simp
      · rfl
  | finish i =>
      show (stepFinish P s i).phases.length = _
      unfold stepFinish
      split
      · split
        · simp [resolve]
        · simp [resolve]
      · rfl

theorem run_phases_length (P : SchedParams) (es : List Event) :
    (run P es).phases.length = P.files.length := by
  unfold run
  exact foldl_inv (step P) (fun s => s.phases.length = P.files.length)
    (fun s e h => (step_phases_length P s e).trans h) es
    (initState P.files.length) (by simp [initState])

/-- C1: the claim says `build_file_list` returns the sorted,
deduplicated union of the groups' Cartesian expansions in ShardKey
order. Evaluating the embedded source function on the configuration
with years `[2020, 2019]` and months `[1, 1]` shows it returns the raw
nested-loop product: duplicated entries and years out of ShardKey
order, so the result is neither deduplicated nor sorted (the repeated
run does yield identical output, as the function is pure). -/
theorem build_file_list_raw_product :
    build_file_list ⟨["yellow"], [2020, 2019], [1, 1]⟩ none none none
      = [("yellow", 2020, 1), ("yellow", 2020, 1),
         ("yellow", 2019, 1), ("yellow", 2019, 1)] ∧
    ¬ (build_file_list ⟨["yellow"], [2020, 2019], [1, 1]⟩
        none none none).Nodup := by
  constructor
  · rfl
  · decide

/-- C6 counterexample: the claim quantifies over every category
override value and every configuration, but an override equal to the
empty string is falsy in Python and is silently ignored (the
configuration's axis is used instead of the singleton), and a
configuration with an empty year axis yields an empty selection even
under an override, not a non-empty one. -/
theorem override_replace_cex :
    build_file_list ⟨["yellow"], [2019], [1]⟩ (some "") none none
      = [("yellow", 2019, 1)] ∧
    build_file_list ⟨["yellow"], [], [1]⟩ (some "fhv") none none = [] := by
  constructor
  · rfl
  · rfl

/-- C6 amended: for every configuration and every non-empty category
override string, `build_file_list` replaces the category axis with the
override singleton (it does not intersect with the configured axis);
every selected shard carries the override category, and the selection
is non-empty whenever the year and month axes are non-empty — in
particular an override naming a category absent from the configuration
still selects it. -/
theorem override_replaces_axis (c : Config) (t : String) (ht : t ≠ "") :
    build_file_list c (some t) none none
      = c.years.flatMap (fun y => c.months.map fun m => (t, y, m)) ∧
    (∀ k ∈ build_file_list c (some t) none none, k.1 = t) ∧
    (c.years ≠ [] → c.months ≠ [] →
      build_file_list c (some t) none none ≠ []) := by
  have heq : build_file_list c (some t) none none
      = c.years.flatMap (fun y => c.months.map fun m => (t, y, m)) := by
    unfold build_file_list truthyStr truthyInt
    simp [ht]
  refine ⟨heq, ?_, ?_⟩
  · intro k hk
    rw [heq] at hk
    rw [List.mem_flatMap] at hk
    obtain ⟨y, _, hk⟩ := hk
    rw [List.mem_map] at hk
    obtain ⟨m, _, hk⟩ := hk
    rw [← hk]
  · intro hy hm
    rw [heq]
    obtain ⟨y, ys, hys⟩ := List.exists_cons_of_ne_nil hy
    obtain ⟨m, ms, hms⟩ := List.exists_cons_of_ne_nil hm
    rw [hys, hms]
    simp [List.flatMap_cons]

/-- C6 witness: the override `fhvhv`, absent from the configured
category axis `[yellow, green]`, yields a non-empty selection entirely
restricted to `fhvhv`. -/
theorem override_replaces_axis_witness :
    build_file_list ⟨["yellow", "green"], [2019], [1, 2]⟩
      (some "fhvhv") none none ≠ [] ∧
    ∀ k ∈ build_file_list ⟨["yellow", "green"], [2019], [1, 2]⟩
      (some "fhvhv") none none, k.1 = "fhvhv" := by
  have h := override_replaces_axis ⟨["yellow", "green"], [2019], [1, 2]⟩
    "fhvhv" (by decide)
  exact ⟨h.2.2 (by decide) (by decide), h.2.1⟩

/-- C7 counterexample: a validly-typed configuration with an empty year
axis produces an empty selection; `main` then prints the notice and
returns normally, so the process exits with status 0 — a success
outcome, not the failure outcome the claim requires. -/
theorem empty_selection_exit_zero_cex :
    main_outcome emptyYearsConfig none none none
      = RunOutcome.emptySelectionNotice ∧
    exitCode (main_outcome emptyYearsConfig none none none) = 0 := by
  constructor
  · rfl
  · rfl

/-- C7 amended: an empty selection is detected pre-flight — after
validation, before any download or gitignore I/O — and the run stops
there with a notice; but it terminates with a success outcome (exit
status 0), not a failure outcome. -/
theorem empty_selection_preflight (c : Config) (t : Option String)
    (y m : Option Int)
    (hv : validationErrors c = [])
    (he : build_file_list c t y m = []) :
    main_outcome c t y m = RunOutcome.emptySelectionNotice ∧
    exitCode (main_outcome c t y m) = 0 ∧
    performsDownloadIO (main_outcome c t y m) = false := by
  have hm : main_outcome c t y m = RunOutcome.emptySelectionNotice := by
    unfold main_outcome validate_config
    rw [if_pos hv]
    simp [he]
  rw [hm]
  exact ⟨rfl, rfl, rfl⟩

/-- C7 witness: the empty-year configuration stops pre-flight with no
download I/O and a zero exit status. -/
theorem empty_selection_preflight_witness :
    performsDownloadIO (main_outcome emptyYearsConfig none none none)
        = false ∧
    exitCode (main_outcome emptyYearsConfig none none none) = 0 := by
  have h := empty_selection_preflight emptyYearsConfig none none none
    (by decide) (by decide)
  exact ⟨h.2.2, h.2.1⟩

/-- C8 counterexample: the claim says every category of the known
4-value set with at least one output file is loaded, but the loader
iterates only over `["yellow", "green"]`; with an fhv output file
present, no table at all is created. -/
theorem loader_ignores_fhv_cex :
    "fhv" ∈ KNOWN_TAXI_TYPES ∧ fhvOnlyFiles "fhv" ≠ [] ∧
    load_into_duckdb (fun _ => true) fhvOnlyFiles (fun _ => 10) = [] := by
  refine ⟨by decide, by decide, ?_⟩
  rfl

/-- C8 amended: for every category in `{yellow, green}` (the loader's
hard-coded list, not the full known 4-value set) whose data directory
exists and holds at least one parquet file, the loader (re)creates that
category's table scanning all of the category's files as one dataset
with schemas unioned by name, reporting the summed row count; every
created table belongs to `{yellow, green}` and uses the by-name union. -/
theorem loader_loads_yellow_green (dirExists : String → Bool)
    (pf : String → List String) (rowsOf : String → Nat) (t : String)
    (ht : t ∈ (["yellow", "green"] : List String))
    (hd : dirExists ("data/" ++ t) = true)
    (hp : pf t ≠ []) :
    ({ category := t, sourceGlob := "data/" ++ t ++ "/*.parquet",
       unionByName := true, rows := ((pf t).map rowsOf).sum } : LoadedTable)
      ∈ load_into_duckdb dirExists pf rowsOf ∧
    ∀ tbl ∈ load_into_duckdb dirExists pf rowsOf,
      tbl.category ∈ (["yellow", "green"] : List String)
        ∧ tbl.unionByName = true := by
  constructor
  · unfold load_into_duckdb
    rw [List.mem_filterMap]
    refine ⟨t, ht, ?_⟩
    rw [if_neg (by simp [hd]), if_neg hp]
  · intro tbl htbl
    unfold load_into_duckdb at htbl
    rw [List.mem_filterMap] at htbl
    obtain ⟨x, hx, hfx⟩ := htbl
    by_cases h1 : dirExists ("data/" ++ x) = false
    · rw [if_pos h1] at hfx
      exact Option.noConfusion hfx
    · rw [if_neg h1] at hfx
      by_cases h2 : pf x = []
      · rw [if_pos h2] at hfx
        exact Option.noConfusion hfx
      · rw [if_neg h2] at hfx
        have := Option.some.inj hfx
        rw [← this]
        exact ⟨hx, rfl⟩

/-- C8 witness: with one yellow parquet file of three rows, the yellow
table is created with the by-name union and row count three. -/
theorem loader_loads_yellow_green_witness :
    ({ category := "yellow", sourceGlob := "data/" ++ "yellow" ++ "/*.parquet",
       unionByName := true,
       rows := ((yellowOnlyFiles "yellow").map (fun _ => 3)).sum } :
      LoadedTable)
      ∈ load_into_duckdb (fun _ => true) yellowOnlyFiles (fun _ => 3) :=
  (loader_loads_yellow_green (fun _ => true) yellowOnlyFiles (fun _ => 3)
    "yellow" (by decide) rfl (by decide)).1

theorem validationErrors_nil_iff (c : Config) :
    validationErrors c = [] ↔
      ((∀ t ∈ c.taxi_types, t ∈ KNOWN_TAXI_TYPES)
        ∧ (∀ y ∈ c.years, 2009 ≤ y ∧ y ≤ 2030)
        ∧ (∀ m ∈ c.months, 1 ≤ m ∧ m ≤ 12)) := by
  unfold validationErrors
  rw [List.append_eq_nil, List.append_eq_nil]
  constructor
  · rintro ⟨⟨h1, h2⟩, h3⟩
    refine ⟨?_, ?_, ?_⟩
    · intro t htm
      by_contra hun
      have hmem : t ∈ (c.taxi_types.filter
          (fun t => ¬ t ∈ KNOWN_TAXI_TYPES)).dedup := by
        rw [List.mem_dedup, List.mem_filter]
        exact ⟨htm, by simp [hun]⟩
      rw [if_neg (List.ne_nil_of_mem hmem)] at h1
      exact List.noConfusion h1
    · intro y hym
      by_contra hbad
      rw [List.filterMap_eq_nil_iff] at h2
      have := h2 y hym
      rw [if_neg hbad] at this
      exact Option.noConfusion this
    · intro m hmm
      by_contra hbad
      rw [List.filterMap_eq_nil_iff] at h3
      have := h3 m hmm
      rw [if_neg hbad] at this
      exact Option.noConfusion this
  · rintro ⟨h1, h2, h3⟩
    refine ⟨⟨?_, ?_⟩, ?_⟩
    · rw [if_pos]
      rw [List.dedup_eq_nil, List.filter_eq_nil_iff]
      intro t htm
      simp [h1 t htm]
    · rw [List.filterMap_eq_nil_iff]
      intro y hym
      rw [if_pos (h2 y hym)]
    · rw [List.filterMap_eq_nil_iff]
      intro m hmm
      rw [if_pos (h3 m hmm)]

/-- C5: `validate_config` terminates with a non-zero outcome exactly
when at least one violation (unknown category, year outside
[2009, 2030], month outside [1, 12]) exists, and the reported list
collects every violation: every out-of-range year and month appears in
it, and every unknown category appears inside the aggregated
unknown-types entry — validation never stops at the first violation. -/
theorem validate_config_collects_all (c : Config) :
    ((∃ e, validate_config c = Except.error e) ↔
      ((∃ t ∈ c.taxi_types, ¬ t ∈ KNOWN_TAXI_TYPES)
        ∨ (∃ y ∈ c.years, ¬ (2009 ≤ y ∧ y ≤ 2030))
        ∨ (∃ m ∈ c.months, ¬ (1 ≤ m ∧ m ≤ 12)))) ∧
    (∀ y ∈ c.years, ¬ (2009 ≤ y ∧ y ≤ 2030) →
      Violation.badYear y ∈ validationErrors c) ∧
    (∀ m ∈ c.months, ¬ (1 ≤ m ∧ m ≤ 12) →
      Violation.badMonth m ∈ validationErrors c) ∧
    (∀ t ∈ c.taxi_types, ¬ t ∈ KNOWN_TAXI_TYPES →
      ∃ ts, Violation.unknownTypes ts ∈ validationErrors c ∧ t ∈ ts) := by
  refine ⟨?_, ?_, ?_, ?_⟩
  · constructor
    · intro ⟨e, he⟩
      unfold validate_config at he
      by_cases hv : validationErrors c = []
      · rw [if_pos hv] at he
        exact Except.noConfusion he
      · rw [validationErrors_nil_iff] at hv
        by_contra hno
        push_neg at hno
        exact hv ⟨hno.1, hno.2.1, hno.2.2⟩
    · intro hviol
      unfold validate_config
      by_cases hv : validationErrors c = []
      · exfalso
        rw [validationErrors_nil_iff] at hv
        rcases hviol with ⟨t, htm, hun⟩ | ⟨y, hym, hbad⟩ | ⟨m, hmm, hbad⟩
        · exact hun (hv.1 t htm)
        · exact hbad (hv.2.1 y hym)
        · exact hbad (hv.2.2 m hmm)
      · rw [if_neg hv]
        exact ⟨validationErrors c, rfl⟩
  · intro y hym hbad
    unfold validationErrors
    rw [List.mem_append, List.mem_append]
    refine Or.inl (Or.inr ?_)
    rw [List.mem_filterMap]
    exact ⟨y, hym, by rw [if_neg hbad]⟩
  · intro m hmm hbad
    unfold validationErrors
    rw [List.mem_append]
    refine Or.inr ?_
    rw [List.mem_filterMap]
    exact ⟨m, hmm, by rw [if_neg hbad]⟩
  · intro t htm hun
    have hmem : t ∈ (c.taxi_types.filter
        (fun t => ¬ t ∈ KNOWN_TAXI_TYPES)).dedup := by
      rw [List.mem_dedup, List.mem_filter]
      exact ⟨htm, by simp [hun]⟩
    refine ⟨(c.taxi_types.filter (fun t => ¬ t ∈ KNOWN_TAXI_TYPES)).dedup,
      ?_, hmem⟩
    unfold validationErrors
    rw [List.mem_append, List.mem_append]
    refine Or.inl (Or.inl ?_)
    rw [if_neg (List.ne_nil_of_mem hmem)]
    exact List.mem_singleton.mpr rfl

/-- C5 witness: a configuration with an unknown category, a bad year,
and two bad months is rejected and every one of those violations is
reported. -/
theorem validate_config_collects_all_witness :
    (∃ e, validate_config badConfig = Except.error e) ∧
    Violation.badYear 1999 ∈ validationErrors badConfig ∧
    Violation.badMonth 0 ∈ validationErrors badConfig ∧
    Violation.badMonth 13 ∈ validationErrors badConfig ∧
    (∃ ts, Violation.unknownTypes ts ∈ validationErrors badConfig
      ∧ "red" ∈ ts) := by
  have h := validate_config_collects_all badConfig
  exact ⟨h.1.mpr (Or.inl ⟨"red", by decide, by decide⟩),
    h.2.1 1999 (by decide) (by decide),
    h.2.2.1 0 (by decide) (by decide),
    h.2.2.1 13 (by decide) (by decide),
    h.2.2.2 "red" (by decide) (by decide)⟩

/-- C10: the intermediate csv.gz file is deleted only after the
conversion has fully succeeded; on any fetch or conversion failure the
already-written intermediate (whether pre-existing or written by this
attempt — every failure mode past the status check writes it) remains
on disk, no cleanup path removes it, and the target parquet path is not
present after a failed attempt; on success the parquet file is present
and the intermediate is gone; and an intermediate that disappears
implies the attempt fully succeeded. -/
theorem intermediate_removed_only_on_success (fs : FS) (t : String)
    (y m : Int) (force : Bool) (fetch : FetchOutcome) (cOk : Bool)
    (hne : parquetPath t y m ≠ csvGzPath t y m) :
    ((download_and_convert fs t y m fetch cOk force).outcome
        = DCOutcome.error →
      (fs (csvGzPath t y m) = true →
        (download_and_convert fs t y m fetch cOk force).fs
          (csvGzPath t y m) = true) ∧
      (fetch ≠ FetchOutcome.statusError →
        (download_and_convert fs t y m fetch cOk force).fs
          (csvGzPath t y m) = true) ∧
      (download_and_convert fs t y m fetch cOk force).fs
        (parquetPath t y m) = false) ∧
    ((download_and_convert fs t y m fetch cOk force).outcome
        = DCOutcome.downloaded (parquetPath t y m) →
      (download_and_convert fs t y m fetch cOk force).fs
        (csvGzPath t y m) = false ∧
      (download_and_convert fs t y m fetch cOk force).fs
        (parquetPath t y m) = true) ∧
    (fs (csvGzPath t y m) = true →
      (download_and_convert fs t y m fetch cOk force).fs
        (csvGzPath t y m) = false →
      (download_and_convert fs t y m fetch cOk force).outcome
        = DCOutcome.downloaded (parquetPath t y m)) := by
  have hne' : ¬ (csvGzPath t y m = parquetPath t y m) :=
    fun hh => hne hh.symm
  by_cases hskip : fs (parquetPath t y m) = true ∧ force = false
  · have hr : download_and_convert fs t y m fetch cOk force
        = ⟨DCOutcome.skipped (parquetPath t y m), fs, 0⟩ := by
      unfold download_and_convert
      rw [if_pos hskip]
    rw [hr]
    refine ⟨?_, ?_, ?_⟩
    · intro h
      exact DCOutcome.noConfusion h
    · intro h
      exact DCOutcome.noConfusion h
    · intro h1 h2
      simp at h2
      rw [h1] at h2
      exact Bool.noConfusion h2
  · have hr0 : download_and_convert fs t y m fetch cOk force
        = attemptFetchConvert
            (if fs (parquetPath t y m) = true then
              fs.remove (parquetPath t y m) else fs)
            t y m fetch cOk := by
      unfold download_and_convert
      rw [if_neg hskip]
    have hfs0pq : (if fs (parquetPath t y m) = true then
        fs.remove (parquetPath t y m) else fs) (parquetPath t y m)
        = false := by
      by_cases hpq : fs (parquetPath t y m) = true
      · rw [if_pos hpq]
        simp [FS.remove]
      · rw [if_neg hpq]
        simpa using hpq
    have hfs0gz : (if fs (parquetPath t y m) = true then
        fs.remove (parquetPath t y m) else fs) (csvGzPath t y m)
        = fs (csvGzPath t y m) := by
      by_cases hpq : fs (parquetPath t y m) = true
      · rw [if_pos hpq]
        simp [FS.remove, hne']
      · rw [if_neg hpq]
    rw [hr0]
    cases fetch with
    | statusError =>
        simp only [attemptFetchConvert]
        refine ⟨?_, ?_, ?_⟩
        · intro _
          refine ⟨?_, ?_, hfs0pq⟩
          · intro h1
            rw [hfs0gz, h1]
          · intro h2
            exact absurd rfl h2
        · intro h
          exact DCOutcome.noConfusion h
        · intro h1 h2
          rw [hfs0gz, h1] at h2
          exact Bool.noConfusion h2
    | midstreamError =>
        simp only [attemptFetchConvert]
        refine ⟨?_, ?_, ?_⟩
        · intro _
          refine ⟨?_, ?_, ?_⟩
          · intro _
            simp [FS.add]
          · intro _
            simp [FS.add]
          · simp [FS.add, hne, hfs0pq]
        · intro h
          exact DCOutcome.noConfusion h
        · intro _ h2
          simp [FS.add] at h2
    | ok =>
        cases cOk with
        | true =>
            simp only [attemptFetchConvert, if_pos]
            refine ⟨?_, ?_, ?_⟩
            · intro h
              exact DCOutcome.noConfusion h
            · intro _
              constructor
              · simp [FS.remove]
              · simp [FS.remove, FS.add, hne, hne']
            · intro _ _
              trivial
        | false =>
            simp only [attemptFetchConvert, if_neg]
            refine ⟨?_, ?_, ?_⟩
            · intro _
              refine ⟨?_, ?_, ?_⟩
              · intro _
                simp [FS.add]
              · intro _
                simp [FS.add]
              · simp [FS.add, hne, hfs0pq]
            · intro h
              exact DCOutcome.noConfusion h
            · intro _ h2
              simp [FS.add] at h2

/-- C10 witness: with an empty filesystem and a conversion failure, the
freshly written intermediate csv.gz survives and no parquet file
appears; with a successful attempt the parquet file appears and the
intermediate is gone. -/
theorem intermediate_removed_only_on_success_witness :
    (download_and_convert emptyFS "yellow" 2019 1 .ok false false).fs
      (csvGzPath "yellow" 2019 1) = true ∧
    (download_and_convert emptyFS "yellow" 2019 1 .ok false false).fs
      (parquetPath "yellow" 2019 1) = false ∧
    (download_and_convert emptyFS "yellow" 2019 1 .ok true false).fs
      (csvGzPath "yellow" 2019 1) = false ∧
    (download_and_convert emptyFS "yellow" 2019 1 .ok true false).fs
      (parquetPath "yellow" 2019 1) = true := by
  have hne : parquetPath "yellow" 2019 1 ≠ csvGzPath "yellow" 2019 1 := by
    decide
  have h1 := intermediate_removed_only_on_success emptyFS "yellow" 2019 1
    false .ok false hne
  have h2 := intermediate_removed_only_on_success emptyFS "yellow" 2019 1
    false .ok true hne
  have he1 := h1.1 rfl
  have he2 := h2.2.1 rfl
  exact ⟨he1.2.1 (by decide), he1.2.2, he2.1, he2.2⟩

/-- C2: for a 12-shard selection whose outputs are absent and whose
every fetch attempt fails, every interleaving of the scheduler (any
event schedule respecting the task guards and the 4-slot semaphore)
starts strictly fewer than 12 fetch attempts — at most 8 = threshold
plus remaining slots — and the returned result contains zero
successfully produced output paths. -/
theorem download_all_files_abort_bound (files : List ShardKey)
    (es : List Event) (h12 : files.length = 12) :
    (run ⟨files, fun _ => false, fun _ => false, false⟩ es).attempts < 12 ∧
    doneCount (run ⟨files, fun _ => false, fun _ => false, false⟩ es)
      .success = 0 ∧
    (download_all_files ⟨files, fun _ => false, fun _ => false, false⟩
      es).1 = [] := by
  have hInv : AbortInv files.length
      (run ⟨files, fun _ => false, fun _ => false, false⟩ es) := by
    unfold run
    exact foldl_inv _ _
      (abortInv_step ⟨files, fun _ => false, fun _ => false, false⟩
        (fun _ => rfl) (fun _ => rfl)) es _ (abortInv_init files.length)
  obtain ⟨hlen, hinfl, hclear, hset, hsucc⟩ := hInv
  have hbound : (run ⟨files, fun _ => false, fun _ => false, false⟩
      es).attempts ≤ 8 := by
    cases hab : (run ⟨files, fun _ => false, fun _ => false, false⟩
        es).aborted with
    | true => exact hset hab
    | false =>
        obtain ⟨_, hf4, hatt⟩ := hclear hab
        unfold CONCURRENT_DOWNLOADS at hf4 hinfl
        omega
  refine ⟨by omega, hsucc, ?_⟩
  show successfulPaths _ _ = []
  exact successfulPaths_nil _ _ hsucc

/-- C2 witness: twelve all-failing shards under the sequential schedule
start fewer than 12 attempts and produce no output path. -/
theorem download_all_files_abort_bound_witness :
    twelveShards.length = 12 ∧
    ((run allFailParams (seqSchedule 12)).attempts < 12 ∧
      doneCount (run allFailParams (seqSchedule 12)) .success = 0 ∧
      (download_all_files allFailParams (seqSchedule 12)).1 = []) :=
  ⟨by decide,
    download_all_files_abort_bound twelveShards (seqSchedule 12) (by decide)⟩

/-- C3 counterexample: with six all-failing shards and an interleaving
in which the fifth and sixth fetches are already in flight when the
counter crosses the threshold, both of their failures satisfy
`consecutive_failures >= MAX_CONSECUTIVE_FAILURES`, so the abort notice
is printed twice — not exactly once as the claim states. -/
theorem abort_notice_printed_twice_cex :
    (run sixFailParams interleavedSchedule).aborted = true ∧
    (run sixFailParams interleavedSchedule).notices = 2 := by
  constructor
  · decide
  · decide

/-- C3 amended: in every run the aborted flag is set exactly when at
least one abort notice has been printed, the notices never exceed the
concurrency bound `CONCURRENT_DOWNLOADS` (one per failure completing at
or past the threshold while earlier-started fetches are still in
flight — never one per remaining shard), and once the flag is set it is
never cleared for the remainder of the run, whatever events follow. -/
theorem abort_flag_one_way_bounded_notices (P : SchedParams)
    (es more : List Event) :
    ((run P es).aborted = true ↔ 1 ≤ (run P es).notices) ∧
    (run P es).notices ≤ CONCURRENT_DOWNLOADS ∧
    ((run P es).aborted = true → (run P (es ++ more)).aborted = true) := by
  have hInv : NoticeInv P.files.length (run P es) := by
    unfold run
    exact foldl_inv _ _ (noticeInv_step P) es _
      (noticeInv_init P.files.length)
  obtain ⟨_, hinfl, hn0, hn1, hbound⟩ := hInv
  refine ⟨⟨hn1, ?_⟩, ?_, ?_⟩
  · intro h1
    cases hab : (run P es).aborted with
    | true => rfl
    | false =>
        have := hn0 hab
        omega
  · cases hab : (run P es).aborted with
    | true =>
        have := hbound hab
        omega
    | false =>
        have := hn0 hab
        unfold CONCURRENT_DOWNLOADS
        omega
  · intro hab
    have : run P (es ++ more) = more.foldl (step P) (run P es) := by
      unfold run
      rw [List.foldl_append]
    rw [this]
    exact foldl_inv (step P) (fun s => s.aborted = true)
      (fun s e h => step_aborted_mono P s e h) more _ hab

/-- C3 amended witness: six all-failing shards run sequentially cross
the threshold; at least one notice is printed and the flag survives a
further event. -/
theorem abort_flag_one_way_witness :
    1 ≤ (run sixFailParams (seqSchedule 6)).notices ∧
    (run sixFailParams (seqSchedule 6 ++ [Event.start 0])).aborted
      = true := by
  have h := abort_flag_one_way_bounded_notices sixFailParams
    (seqSchedule 6) [Event.start 0]
  have hab : (run sixFailParams (seqSchedule 6)).aborted = true := by
    decide
  exact ⟨h.1.1 hab, h.2.2 hab⟩

/-- C4: a shard whose output parquet file already exists is returned
as-is with zero fetches when `force` is false; consequently, a
scheduler run over a selection whose every output already exists
performs zero fetch attempts under every interleaving, fails or aborts
nothing, and under the full sequential schedule resolves every shard as
a success. -/
theorem second_run_performs_no_fetch :
    (∀ (fs : FS) (t : String) (y m : Int) (fetch : FetchOutcome)
      (cOk : Bool),
      fs (parquetPath t y m) = true →
      download_and_convert fs t y m fetch cOk false
        = ⟨DCOutcome.skipped (parquetPath t y m), fs, 0⟩) ∧
    (∀ (P : SchedParams) (es : List Event),
      (∀ k ∈ P.files, P.existsOnDisk k = true) → P.force = false →
      (run P es).attempts = 0 ∧ (run P es).aborted = false ∧
      doneCount (run P es) .failed = 0) ∧
    (∀ P : SchedParams,
      (∀ k ∈ P.files, P.existsOnDisk k = true) → P.force = false →
      doneCount (run P (seqSchedule P.files.length)) .success
        = P.files.length) := by
  have hrerun : ∀ (P : SchedParams) (es : List Event),
      (∀ k ∈ P.files, P.existsOnDisk k = true) → P.force = false →
      RerunInv P.files.length (run P es) := by
    intro P es hEx hF
    unfold run
    exact foldl_inv _ _ (rerunInv_step P hEx hF) es _
      (rerunInv_init P.files.length)
  refine ⟨?_, ?_, ?_⟩
  · intro fs t y m fetch cOk h
    unfold download_and_convert
    rw [if_pos ⟨h, rfl⟩]
  · intro P es hEx hF
    obtain ⟨_, hatt, hab, _, hfail, _⟩ := hrerun P es hEx hF
    exact ⟨hatt, hab, hfail⟩
  · intro P hEx hF
    obtain ⟨hlen, _, _, hinfl, hfail, hna⟩ :=
      hrerun P (seqSchedule P.files.length) hEx hF
    obtain ⟨_, _, hpend⟩ := seq_run_complete P
    have hpart := countPhase_partition
      (run P (seqSchedule P.files.length)).phases
    unfold pendingCount at hpend
    unfold inflightCount at hinfl
    unfold doneCount at hfail hna ⊢
    rw [hlen] at hpart
    omega

/-- C4 witness: with the parquet output of yellow/2019/01 present,
`download_and_convert` returns it with zero fetches, and a 1-shard
all-existing run attempts no fetch and resolves its shard as a
success. -/
theorem second_run_performs_no_fetch_witness :
    download_and_convert oneParquetFS "yellow" 2019 1 .statusError true
        false
      = ⟨DCOutcome.skipped (parquetPath "yellow" 2019 1), oneParquetFS, 0⟩ ∧
    (run allExistParams (seqSchedule 1)).attempts = 0 ∧
    doneCount (run allExistParams (seqSchedule 1)) .success = 1 := by
  have h := second_run_performs_no_fetch
  refine ⟨h.1 oneParquetFS "yellow" 2019 1 .statusError true (by decide),
    ?_, ?_⟩
  · exact (h.2.1 allExistParams (seqSchedule 1)
      (fun k _ => rfl) rfl).1
  · exact h.2.2 allExistParams (fun k _ => rfl) rfl

/-- C9: the scheduler is a total function of the batch: under every
event schedule the tasks partition into pending, in-flight, succeeded,
failed and not-attempted, summing to the batch size; the returned value
is exactly the pair of the successfully produced output paths and the
failed count; and under the full sequential schedule every task settles
(none pending or in flight), with the successes, failures and
not-attempted tasks accounting for the whole batch and the returned
path list having exactly one entry per succeeded task — partial failure
never prevents the scheduler from returning this accounting. -/
theorem scheduler_total_accounting (P : SchedParams) (es : List Event) :
    (pendingCount (run P es) + inflightCount (run P es)
      + doneCount (run P es) .success + doneCount (run P es) .failed
      + doneCount (run P es) .notAttempted = P.files.length) ∧
    download_all_files P es
      = (successfulPaths P (run P es), doneCount (run P es) .failed) ∧
    pendingCount (run P (seqSchedule P.files.length)) = 0 ∧
    inflightCount (run P (seqSchedule P.files.length)) = 0 ∧
    (doneCount (run P (seqSchedule P.files.length)) .success
      + doneCount (run P (seqSchedule P.files.length)) .failed
      + doneCount (run P (seqSchedule P.files.length)) .notAttempted
      = P.files.length) ∧
    (successfulPaths P (run P (seqSchedule P.files.length))).length
      = doneCount (run P (seqSchedule P.files.length)) .success := by
  obtain ⟨hlen, hinfl, hpend⟩ := seq_run_complete P
  have hpart := countPhase_partition (run P es).phases
  rw [run_phases_length P es] at hpart
  have hpartS := countPhase_partition
    (run P (seqSchedule P.files.length)).phases
  rw [hlen] at hpartS
  refine ⟨?_, rfl, hpend, hinfl, ?_, ?_⟩
  · unfold pendingCount inflightCount doneCount
    omega
  · unfold pendingCount at hpend
    unfold inflightCount at hinfl
    unfold doneCount
    omega
  · exact successfulPaths_length P _ hlen

end DownloadData
